import Mathlib

/-!
Verification development for the OBS Subproject Creator utility
(`bin/obs_subproject_creator.py`).

The script assembles a project-meta XML document for the Open Build Service
from operator decisions and remote lookups.  We model the XML element trees
produced by `xml.etree.ElementTree` explicitly, embed the pure decision and
merge logic of the script (template filtering, architecture resolution,
repository assembly, role collection, document construction), and prove the
specification's properties about these definitions.

Interactive prompts and network calls are modelled by explicit decision
scripts: each loop of the source consumes a list of operator answers and
oracle responses, mirroring the control flow of the source line by line.
-/

/-- An XML element as built by `xml.etree.ElementTree`: a tag, an attribute
list (insertion-ordered, keys unique in practice), optional text, and child
elements in document order. -/
structure XmlElem where
  tag : String
  attrs : List (String × String)
  text : Option String
  children : List XmlElem

/-- A raw document as received from the network or a template: either a
well-formed document (its parse tree) or malformed bytes on which
`ET.fromstring` raises `ParseError`. -/
inductive RawDoc where
  | parsed (e : XmlElem)
  | malformed

/-- The `xml.etree.ElementTree.ParseError` exception (the spec's
`TemplateParseError`). -/
inductive ParseError where
  | mk
deriving DecidableEq, Repr

/-- `ET.fromstring`: parse a raw document or raise `ParseError`. -/
def parse_xml : RawDoc → Except ParseError XmlElem
  | RawDoc.parsed e => Except.ok e
  | RawDoc.malformed => Except.error ParseError.mk

/-- First value of an attribute key, as `elem.attrib.get(k)` /
`elem.get(k)`. -/
def get_attr (e : XmlElem) (k : String) : Option String :=
  (e.attrs.find? (fun p => p.1 == k)).map (fun p => p.2)

/-- The default architecture list `DEFAULT_ARCHITECTURES` of the script,
in its declaration order. -/
def DEFAULT_ARCHITECTURES : List String :=
  ["x86_64", "ppc64le", "s390x", "aarch64"]

/-- Python's `sorted` on a list of strings (ascending lexicographic). -/
def py_sorted (l : List String) : List String :=
  List.insertionSort (fun a b : String => a ≤ b) l

/-- `sanitize_repo_name`: replace every ':' and then every '/' by '_',
exactly as the two chained `str.replace` calls of the source. -/
def sanitize_repo_name (name : String) : String :=
  String.mk ((String.mk (name.data.map (fun c => if c = ':' then '_' else c))).data.map
    (fun c => if c = '/' then '_' else c))

/-- `fetch_source_architectures`: given the raw `_meta` response for the
path's source project (or `none` on transport/HTTP failure), find the
repository element of the given name and return its architecture texts,
stripped and sorted; `none` when the response is missing, unparsable, or
has no such repository. -/
def fetch_source_architectures (response : Option RawDoc) (repo_name : String) :
    Option (List String) :=
  match response with
  | none => none
  | some raw =>
    match parse_xml raw with
    | Except.error _ => none
    | Except.ok root =>
      match root.children.find? (fun c =>
          c.tag == "repository" && (get_attr c "name" == some repo_name)) with
      | none => none
      | some repo_elem =>
        some (py_sorted ((repo_elem.children.filter (fun c => c.tag == "arch")).filterMap
          (fun a => match a.text with
            | some t => if t = "" then none else some t.trim
            | none => none)))

/-- `get_template_architectures`: all distinct architecture texts found in
the template's repository elements, sorted ascending; `[]` when there is no
template or it fails to parse. -/
def get_template_architectures (template_meta_xml : Option RawDoc) : List String :=
  match template_meta_xml with
  | none => []
  | some raw =>
    match parse_xml raw with
    | Except.error _ => []
    | Except.ok root =>
      let collected := (root.children.filter (fun c => c.tag == "repository")).foldl
        (fun acc repo => acc ++ (repo.children.filter (fun c => c.tag == "arch")).filterMap
          (fun a => match a.text with
            | some t => if t = "" then none else some t.trim
            | none => none)) []
      (py_sorted collected).dedup

/-- Python `set(a) != set(b)` negated: the two lists hold the same set of
strings. -/
def py_set_eq (a b : List String) : Bool :=
  a.all (fun x => b.contains x) && b.all (fun x => a.contains x)

/-- The architecture update performed for one path (source lines 339-362):
if a non-empty set was discovered and it differs (as a set) from the current
one, the caller's replace/keep answer decides; if it is equal and this is
the first path, the discovered list replaces the current one; otherwise the
current list is kept. -/
def arch_step (path_count : Nat) (current : List String)
    (source_arches : Option (List String)) (replace : Bool) : List String :=
  let sa := source_arches.getD []
  if !sa.isEmpty && !(py_set_eq sa current) then
    if replace then sa else current
  else if !sa.isEmpty then
    if path_count = 1 then sa else current
  else current

/-- One candidate entry at the path-project prompt: the typed text (empty
string accepts the default), the oracle's existence answer, and the
proceed-anyway answer used when the project does not exist. -/
structure ProjAttempt where
  input : String
  oracleExists : Bool
  override : Bool
deriving DecidableEq, Repr

/-- Outcome of the inner path-project validation loop. -/
inductive ProjOutcome where
  | accepted (project : String)
  | earlyExit
  | stuck
deriving DecidableEq, Repr

/-- The inner validation loop of `get_repository_details` (source lines
297-327): prompt until a project is accepted (it exists, or the operator
overrides), with the default carried from the previous rejected entry; an
empty resolved project after the first path returns early. `stuck` marks an
exhausted decision script (the source would keep prompting). -/
def resolve_path_project (path_count : Nat) (dflt : String) :
    List ProjAttempt → ProjOutcome
  | [] => ProjOutcome.stuck
  | a :: rest =>
    let path_project := if a.input = "" then dflt else a.input
    if 1 < path_count ∧ path_project = "" then ProjOutcome.earlyExit
    else if a.oracleExists then ProjOutcome.accepted path_project
    else if a.override then ProjOutcome.accepted path_project
    else resolve_path_project path_count path_project rest

/-- One `path` entry of a repository:  project and repository names keep
their native separators, they are never sanitized. -/
structure RepoPath where
  project : String
  repository : String
deriving DecidableEq, Repr

/-- The value returned by `get_repository_details`. -/
structure RepoResult where
  repo_name : String
  paths : List RepoPath
  architectures : List String
deriving DecidableEq, Repr

/-- The operator decisions and oracle responses consumed by one iteration
of the outer path loop of `get_repository_details`. -/
structure PathStep where
  projAttempts : List ProjAttempt
  repoInput : String
  source_arches : Option (List String)
  replace : Bool
  addAnother : Bool
deriving DecidableEq, Repr

/-- The default offered at the path-project prompt (source line 295): the
previous path's project, or the repository's input name for the first
path. -/
def path_project_default (repo_input_name : String) (paths : List RepoPath) : String :=
  match paths.getLast? with
  | some p => p.project
  | none => repo_input_name

/-- The default offered at the path-repository prompt (source line 330):
the previous path's repository, or `standard` for the first path. -/
def path_repository_default (paths : List RepoPath) : String :=
  match paths.getLast? with
  | some p => p.repository
  | none => "standard"

/-- The repository name used by the early return of
`get_repository_details` (source line 307): the sanitized first path
project when a path exists, else the sanitized input name. -/
def early_exit_name (repo_input_name : String) (paths : List RepoPath) : String :=
  match paths.head? with
  | some p => sanitize_repo_name p.project
  | none => sanitize_repo_name repo_input_name

/-- The repository name recomputed after each accepted path (source lines
364-368): sanitized from the just-accepted project on the first path, else
from the first stored path. -/
def final_name (repo_input_name path_project : String) (new_paths : List RepoPath)
    (pc : Nat) : String :=
  if pc = 1 then sanitize_repo_name path_project
  else match new_paths.head? with
    | some p => sanitize_repo_name p.project
    | none => sanitize_repo_name repo_input_name

/-- The outer path loop of `get_repository_details` (source lines 289-379),
one `PathStep` per iteration: resolve the path project, append the path,
update the architecture set via `arch_step`, recompute the repository name
from the first path, and stop when the operator declines another path.
`none` marks an exhausted decision script. -/
def repo_details_loop (repo_input_name : String) (paths : List RepoPath)
    (current_architectures : List String) (path_count : Nat) :
    List PathStep → Option RepoResult
  | [] => none
  | step :: rest =>
    match resolve_path_project (path_count + 1)
        (path_project_default repo_input_name paths) step.projAttempts with
    | ProjOutcome.stuck => none
    | ProjOutcome.earlyExit =>
      some { repo_name := early_exit_name repo_input_name paths,
             paths := paths,
             architectures := current_architectures }
    | ProjOutcome.accepted path_project =>
      if step.addAnother then
        repo_details_loop repo_input_name
          (paths ++ [⟨path_project,
            if step.repoInput = "" then path_repository_default paths
            else step.repoInput⟩])
          (arch_step (path_count + 1) current_architectures
            step.source_arches step.replace)
          (path_count + 1) rest
      else
        some { repo_name := final_name repo_input_name path_project
                 (paths ++ [⟨path_project,
                   if step.repoInput = "" then path_repository_default paths
                   else step.repoInput⟩])
                 (path_count + 1),
               paths := paths ++ [⟨path_project,
                 if step.repoInput = "" then path_repository_default paths
                 else step.repoInput⟩],
               architectures := arch_step (path_count + 1) current_architectures
                 step.source_arches step.replace }

/-- `get_repository_details`, driven by a decision script: starts with no
paths, the seeded architecture list, and a zero path count. -/
def get_repository_details (repo_input_name : String)
    (custom_repo_arches : List String) (steps : List PathStep) : Option RepoResult :=
  repo_details_loop repo_input_name [] custom_repo_arches 0 steps

/-- One entry of the role-assignment prompt loop of `get_role_assignments`
(source lines 234-271): the typed entity id (empty ends the loop), the
oracle's existence answer, the proceed-anyway answer used when it does not
exist, and the two role answers. -/
structure RoleEntry where
  entity_id : String
  oracleExists : Bool
  proceed : Bool
  maintainer : Bool
  reviewer : Bool
deriving DecidableEq, Repr

/-- `get_role_assignments`, driven by a decision script: stops at the first
blank id; skips entities that fail validation without an override, and
entities granted no role; keeps `(id, maintainer, reviewer)` otherwise, in
entry order. -/
def get_role_assignments : List RoleEntry → List (String × Bool × Bool)
  | [] => []
  | e :: rest =>
    if e.entity_id = "" then []
    else if (e.oracleExists || e.proceed) && (e.maintainer || e.reviewer) then
      (e.entity_id, e.maintainer, e.reviewer) :: get_role_assignments rest
    else
      get_role_assignments rest

/-- The role-list split performed by `main` (source lines 596-608): collect
the maintainer ids and the reviewer ids of a block of assignments, in
order.  An id granted both roles appears in both lists; an id entered twice
appears twice. -/
def split_assignments (assignments : List (String × Bool × Bool)) :
    List String × List String :=
  (assignments.filterMap (fun a => if a.2.1 then some a.1 else none),
   assignments.filterMap (fun a => if a.2.2 then some a.1 else none))

/-- `_add_role_element` for the `person` tag. -/
def person_element (userid role : String) : XmlElem :=
  ⟨"person", [("userid", userid), ("role", role)], none, []⟩

/-- `_add_role_element` for the `group` tag. -/
def group_element (groupid role : String) : XmlElem :=
  ⟨"group", [("groupid", groupid), ("role", role)], none, []⟩

/-- The role elements appended by `create_project_meta_xml` (source lines
441-448): maintainer persons, maintainer groups, reviewer persons, reviewer
groups, each list in order. -/
def role_elements (maintainer_users maintainer_groups
    reviewer_users reviewer_groups : List String) : List XmlElem :=
  maintainer_users.map (fun u => person_element u "maintainer")
  ++ maintainer_groups.map (fun g => group_element g "maintainer")
  ++ reviewer_users.map (fun u => person_element u "reviewer")
  ++ reviewer_groups.map (fun g => group_element g "reviewer")

/-- The repository element built for one `RepoData` entry (source lines
450-458): its paths in list order, then its architectures in list order. -/
def repo_element (r : RepoResult) : XmlElem :=
  ⟨"repository", [("name", r.repo_name)], none,
    r.paths.map (fun p => ⟨"path", [("project", p.project), ("repository", p.repository)], none, []⟩)
    ++ r.architectures.map (fun a => ⟨"arch", [], some a, []⟩)⟩

/-- Whether the template-filter loop of `create_project_meta_xml` (source
lines 408-419) removes a top-level child, given the four include flags. -/
def should_remove (include_template_repos include_template_roles
    include_template_targets include_template_build_tags : Bool)
    (c : XmlElem) : Bool :=
  ((c.tag == "person" || c.tag == "group") && !include_template_roles)
  || (c.tag == "repository" && !include_template_repos)
  || (c.tag == "releasetarget" && !include_template_targets)
  || (c.tag == "build" && !include_template_build_tags)

/-- The second filter pass of `create_project_meta_xml` (source lines
421-426): remove every `releasetarget` child from every top-level
`repository` element. -/
def strip_release_targets (root : XmlElem) : XmlElem :=
  { root with children := root.children.map (fun c =>
      if c.tag == "repository" then
        { c with children := c.children.filter (fun t => !(t.tag == "releasetarget")) }
      else c) }

/-- The template branch of `create_project_meta_xml` (source lines
403-428): parse the template (propagating `ParseError` exactly as the
source, which does not catch it), delete its `name` attribute, drop the
top-level children excluded by the flags, and strip nested release targets
when they are not included; without a template, a fresh `<project>`
element. -/
def filtered_root (template_meta_xml : Option RawDoc)
    (include_template_repos include_template_roles
     include_template_targets include_template_build_tags : Bool) :
    Except ParseError XmlElem :=
  match template_meta_xml with
  | some raw =>
    match parse_xml raw with
    | Except.error e => Except.error e
    | Except.ok root =>
      let root := { root with attrs := root.attrs.filter (fun p => !(p.1 == "name")) }
      let root := { root with children := root.children.filter (fun c =>
        !(should_remove include_template_repos include_template_roles
            include_template_targets include_template_build_tags c)) }
      let root := if !include_template_targets then strip_release_targets root else root
      Except.ok root
  | none => Except.ok ⟨"project", [], none, []⟩

/-- `root.set(k, v)`: overwrite the attribute if present, else append it. -/
def set_attr (e : XmlElem) (k v : String) : XmlElem :=
  if e.attrs.any (fun p => p.1 == k) then
    { e with attrs := e.attrs.map (fun p => if p.1 == k then (k, v) else p) }
  else
    { e with attrs := e.attrs ++ [(k, v)] }

/-- Set the text of the first child with the given tag, leaving every other
child untouched. -/
def set_first_text : List XmlElem → String → String → List XmlElem
  | [], _, _ => []
  | c :: rest, tag, txt =>
    if c.tag == tag then { c with text := some txt } :: rest
    else c :: set_first_text rest tag txt

/-- The nested `update_tag` helper of `create_project_meta_xml` (source
lines 432-436): set the text of the first child with the given tag, or
append a fresh child carrying that text. -/
def update_tag (parent : XmlElem) (tag_name text_content : String) : XmlElem :=
  if parent.children.any (fun c => c.tag == tag_name) then
    { parent with children := set_first_text parent.children tag_name text_content }
  else
    { parent with children := parent.children ++ [⟨tag_name, [], some text_content, []⟩] }

/-- The assembly tail of `create_project_meta_xml` (source lines 430-458):
set the project name, update title and description, then append the role
elements and the configured repository elements. -/
def assemble_root (root : XmlElem) (new_project_name title description : String)
    (maintainer_users maintainer_groups reviewer_users reviewer_groups : List String)
    (repositories_config : List RepoResult) : XmlElem :=
  let root := set_attr root "name" new_project_name
  let root := update_tag root "title" title
  let root := update_tag root "description" description
  { root with children := root.children
      ++ role_elements maintainer_users maintainer_groups reviewer_users reviewer_groups
      ++ repositories_config.map repo_element }

/-- `create_project_meta_xml` (source lines 394-461), up to the final
string rendering: the returned element tree is serialized child by child in
order, so every property of the document is a property of this tree.  The
uncaught `ParseError` the source raises on an unparsable template is the
`Except.error` case. -/
def create_project_meta_xml (new_project_name title description : String)
    (maintainer_users maintainer_groups reviewer_users reviewer_groups : List String)
    (repositories_config : List RepoResult) (template_meta_xml : Option RawDoc)
    (include_template_repos include_template_roles
     include_template_targets include_template_build_tags : Bool) :
    Except ParseError XmlElem :=
  (filtered_root template_meta_xml include_template_repos include_template_roles
      include_template_targets include_template_build_tags).map
    (fun root => assemble_root root new_project_name title description
      maintainer_users maintainer_groups reviewer_users reviewer_groups
      repositories_config)

/-- The template-import flags and architecture seed computed by `main`
(source lines 560-588): all flags start false; with a fetched template the
role answer is taken, and the release-target and build-tag questions are
asked only when repository import was accepted — declining repositories
leaves them false and resets the architecture seed to the default list. -/
structure TemplateFlags where
  roles : Bool
  repos : Bool
  targets : Bool
  build_tags : Bool
  template_arches : List String
deriving DecidableEq, Repr

/-- The flag-collection flow of `main` (source lines 560-588), driven by
the operator's would-be answers; `template_meta_xml = none` covers both "no
template requested" and a failed template fetch. -/
def main_template_flags (template_meta_xml : Option RawDoc)
    (ansRoles ansRepos ansTargets ansBuildTags : Bool) : TemplateFlags :=
  match template_meta_xml with
  | some raw =>
    if ansRepos then
      { roles := ansRoles, repos := true, targets := ansTargets,
        build_tags := ansBuildTags,
        template_arches := get_template_architectures (some raw) }
    else
      { roles := ansRoles, repos := false, targets := false, build_tags := false,
        template_arches := DEFAULT_ARCHITECTURES }
  | none =>
    { roles := false, repos := false, targets := false, build_tags := false,
      template_arches := DEFAULT_ARCHITECTURES }

/-- Source line 590: the architecture seed handed to
`get_repository_details`, defaulting when the template yielded none. -/
def main_custom_repo_arches (template_arches : List String) : List String :=
  if template_arches.isEmpty then DEFAULT_ARCHITECTURES else template_arches

/-- The architecture texts of a repository element, in document order. -/
def arch_texts (repo : XmlElem) : List String :=
  (repo.children.filter (fun c => c.tag == "arch")).filterMap (fun c => c.text)

/-- The per-character substitution realised by the two chained replaces of
`sanitize_repo_name` (proof helper). -/
def sanitize_char (c : Char) : Char :=
  if (if c = ':' then '_' else c) = '/' then '_' else (if c = ':' then '_' else c)

lemma string_data_ext {a b : String} (h : a.data = b.data) : a = b :=
  congrArg String.mk h

lemma sanitize_repo_name_data (s : String) :
    (sanitize_repo_name s).data = s.data.map sanitize_char := by
  simp [sanitize_repo_name, sanitize_char, List.map_map, Function.comp]

lemma sanitize_char_ne (c : Char) :
    sanitize_char c ≠ ':' ∧ sanitize_char c ≠ '/' := by
  unfold sanitize_char
  by_cases h1 : c = ':' <;> by_cases h2 : c = '/' <;> simp [h1, h2]

lemma sanitize_char_id (c : Char) (h1 : c ≠ ':') (h2 : c ≠ '/') :
    sanitize_char c = c := by
  unfold sanitize_char
  simp [h1, h2]

lemma sanitize_char_fix (c : Char) :
    sanitize_char (sanitize_char c) = sanitize_char c := by
  obtain ⟨h1, h2⟩ := sanitize_char_ne c
  exact sanitize_char_id _ h1 h2

/-- C9: `sanitize_repo_name` is a pure total function on strings, it is
idempotent, and its output contains neither ':' nor '/'. -/
theorem c9_sanitize_idempotent_and_separator_free (s : String) :
    sanitize_repo_name (sanitize_repo_name s) = sanitize_repo_name s ∧
    ∀ c ∈ (sanitize_repo_name s).data, c ≠ ':' ∧ c ≠ '/' := by
  constructor
  · apply string_data_ext
    rw [sanitize_repo_name_data, sanitize_repo_name_data, List.map_map]
    exact List.map_congr_left (fun a _ => sanitize_char_fix a)
  · intro c hc
    rw [sanitize_repo_name_data] at hc
    obtain ⟨a, _, rfl⟩ := List.mem_map.1 hc
    exact sanitize_char_ne a

/-- C1 (counterexample): on the very first path of a repository, discovery
succeeds with the non-empty set `["b"]`, which differs from the current set
`["a"]`; the claim says the current set is then unconditionally replaced
with no reconciliation decision asked, i.e. the result should be `["b"]`
regardless of the operator's answer.  In the code the replace/keep question
is asked even on the first path: with answer "keep" the result stays
`["a"]`, with answer "replace" it becomes `["b"]`. -/
theorem c1_counterexample :
    get_repository_details "proj" ["a"]
      [⟨[⟨"", true, true⟩], "", some ["b"], false, false⟩]
      = some ⟨"proj", [⟨"proj", "standard"⟩], ["a"]⟩ ∧
    get_repository_details "proj" ["a"]
      [⟨[⟨"", true, true⟩], "", some ["b"], true, false⟩]
      = some ⟨"proj", [⟨"proj", "standard"⟩], ["b"]⟩ := by
  exact ⟨rfl, rfl⟩

/-- C1 (amended): for the first path, a successful discovery replaces the
current architecture list silently only when the discovered set is
non-empty and equal (as a set) to the current one; when it differs, the
caller is asked the same replace/keep reconciliation question as for
subsequent paths, and an empty discovery leaves the set unchanged. -/
theorem c1_first_path_resolution (current s : List String) (replace : Bool) :
    arch_step 1 current (some s) replace =
      if s.isEmpty then current
      else if py_set_eq s current then s
      else if replace then s else current := by
  rcases hs : s.isEmpty <;> rcases hq : py_set_eq s current <;>
    rcases hr : replace <;> simp [arch_step, hs, hq, hr]

/-- C7: at every reconciliation point after the first path, the resulting
architecture list is exactly one of the two presented lists — the newly
discovered one (replace) or the current one (keep); it is never a union or
intersection of the two. -/
theorem c7_reconciliation_is_replacement (path_count : Nat)
    (current s : List String) (replace : Bool) (h : 2 ≤ path_count) :
    arch_step path_count current (some s) replace = s ∨
    arch_step path_count current (some s) replace = current := by
  have hpc : path_count ≠ 1 := by omega
  rcases hs : s.isEmpty <;> rcases hq : py_set_eq s current <;>
    rcases hr : replace <;> simp [arch_step, hs, hq, hr, hpc]

theorem c7_witness :
    arch_step 2 ["a"] (some ["b"]) true = ["b"] ∨
    arch_step 2 ["a"] (some ["b"]) true = ["a"] :=
  c7_reconciliation_is_replacement 2 ["a"] ["b"] true (by decide)

/-- C2 (counterexample): two maintainer grants entered for user `alice` in
the role prompt loop flow unchanged into the document: the output contains
two `person` elements with userid `alice` and role `maintainer`, not
exactly one — duplicates are not absorbed anywhere. -/
theorem c2_counterexample :
    ((create_project_meta_xml "P:x" "t" "d"
        (split_assignments (get_role_assignments
          [⟨"alice", true, false, true, false⟩, ⟨"alice", true, false, true, false⟩])).1
        []
        (split_assignments (get_role_assignments
          [⟨"alice", true, false, true, false⟩, ⟨"alice", true, false, true, false⟩])).2
        [] [] none false false false false).map
      (fun root => root.children.countP (fun c => c.tag == "person"
        && get_attr c "userid" == some "alice"
        && get_attr c "role" == some "maintainer")))
    = Except.ok 2 := by
  rfl

/-- C3 (counterexample): with an unparsable template the document build
does not fall back to an empty seed — `create_project_meta_xml` re-parses
the template with no exception handler and propagates `ParseError`, so
descriptor synthesis aborts. -/
theorem c3_counterexample :
    create_project_meta_xml "P" "t" "d" [] [] [] [] []
      (some RawDoc.malformed) true true true true
    = Except.error ParseError.mk := by
  rfl

/-- C3 (amended): an unparsable template degrades architecture extraction
to the empty list, so the session's architecture seed falls back to the
default list; but descriptor synthesis itself does not fall back to an
empty seed: for every input, building the document with an unparsable
template signals the parse error and aborts. -/
theorem c3_parse_failure_behaviour :
    get_template_architectures (some RawDoc.malformed) = [] ∧
    main_custom_repo_arches (get_template_architectures (some RawDoc.malformed))
      = DEFAULT_ARCHITECTURES ∧
    ∀ (n t d : String) (mu mg ru rg : List String) (cfg : List RepoResult)
      (f1 f2 f3 f4 : Bool),
      create_project_meta_xml n t d mu mg ru rg cfg
        (some RawDoc.malformed) f1 f2 f3 f4 = Except.error ParseError.mk := by
  refine ⟨rfl, rfl, ?_⟩
  intro n t d mu mg ru rg cfg f1 f2 f3 f4
  rfl

/-- C4 (counterexample): the merge function itself does not force the
dependent flags: merging a template that carries a top-level
build-restriction element with `includeRepos = false` but
`includeBuildTags` requested true keeps the build element in the output. -/
theorem c4_counterexample :
    ((create_project_meta_xml "P" "t" "d" [] [] [] [] []
        (some (RawDoc.parsed ⟨"project", [], none, [⟨"build", [], none, []⟩]⟩))
        false false true true).map
      (fun root => root.children.countP (fun c => c.tag == "build")))
    = Except.ok 1 := by
  rfl

/-- C5 (counterexample): architecture elements are emitted in the order of
the repository's architecture list, and the fixed default list is not in
ascending lexical order: a repository carrying `DEFAULT_ARCHITECTURES`
serializes its arch elements as x86_64, ppc64le, s390x, aarch64. -/
theorem c5_counterexample :
    ((create_project_meta_xml "P" "t" "d" [] [] [] []
        [⟨"r", [⟨"p", "standard"⟩], DEFAULT_ARCHITECTURES⟩]
        none false false false false).map
      (fun root => root.children.filterMap (fun c =>
        if c.tag == "repository" then some (arch_texts c) else none)))
    = Except.ok [DEFAULT_ARCHITECTURES] ∧
    ¬ List.Sorted (fun a b : String => a ≤ b) DEFAULT_ARCHITECTURES := by
  refine ⟨rfl, ?_⟩
  intro h
  simp only [DEFAULT_ARCHITECTURES, List.sorted_cons, List.mem_cons, List.mem_singleton,
    String.le_iff_toList_le, forall_eq_or_imp, forall_eq] at h
  exact absurd h.1.1 (by decide)

/-- C10 (counterexample): a parseable template that already carries two
title elements yields a document with two title elements — `update_tag`
rewrites only the first one, so the claim's "exactly one title element for
every input" fails. -/
theorem c10_counterexample :
    ((create_project_meta_xml "P" "T" "D" [] [] [] [] []
        (some (RawDoc.parsed ⟨"project", [], none,
          [⟨"title", [], some "a", []⟩, ⟨"title", [], some "b", []⟩]⟩))
        true true true true).map
      (fun root => root.children.countP (fun c => c.tag == "title")))
    = Except.ok 2 := by
  rfl


lemma resolve_path_project_earlyExit {path_count : Nat} {dflt : String}
    {attempts : List ProjAttempt}
    (h : resolve_path_project path_count dflt attempts = ProjOutcome.earlyExit) :
    1 < path_count := by
  induction attempts generalizing dflt with
  | nil => simp [resolve_path_project] at h
  | cons a rest ih =>
    simp only [resolve_path_project] at h
    by_cases hc : 1 < path_count ∧ (if a.input = "" then dflt else a.input) = ""
    · exact hc.1
    · rw [if_neg hc] at h
      by_cases h2 : a.oracleExists = true
      · rw [if_pos h2] at h
        simp at h
      · rw [if_neg h2] at h
        by_cases h3 : a.override = true
        · rw [if_pos h3] at h
          simp at h
        · rw [if_neg h3] at h
          exact ih h

lemma repo_details_loop_name (steps : List PathStep) :
    ∀ (rin : String) (paths : List RepoPath) (cur : List String) (pc : Nat)
      (r : RepoResult), pc = paths.length →
      repo_details_loop rin paths cur pc steps = some r →
      r.paths ≠ [] ∧
      ∀ p ps, r.paths = p :: ps → r.repo_name = sanitize_repo_name p.project := by
  induction steps with
  | nil =>
    intro rin paths cur pc r _ h
    simp [repo_details_loop] at h
  | cons step rest ih =>
    intro rin paths cur pc r hpc h
    rw [repo_details_loop] at h
    cases hres : resolve_path_project (pc + 1)
        (path_project_default rin paths) step.projAttempts with
    | stuck =>
      rw [hres] at h
      simp at h
    | earlyExit =>
      rw [hres] at h
      dsimp only at h
      have hgt := resolve_path_project_earlyExit hres
      have hlen : 1 ≤ paths.length := by omega
      rcases paths with _ | ⟨p, ps⟩
      · simp at hlen
      · rw [Option.some.injEq] at h
        subst h
        refine ⟨by simp, ?_⟩
        intro q qs hq
        simp only [List.cons.injEq] at hq
        simp [early_exit_name, ← hq.1]
    | accepted pp =>
      rw [hres] at h
      dsimp only at h
      by_cases hadd : step.addAnother = true
      · rw [if_pos hadd] at h
        exact ih rin _ _ _ r (by simp [hpc]) h
      · rw [if_neg hadd] at h
        rw [Option.some.injEq] at h
        subst h
        refine ⟨by simp, ?_⟩
        intro q qs hq
        rcases hpaths : paths with _ | ⟨p0, ps0⟩
        · subst hpaths
          have hpc0 : pc = 0 := by simpa using hpc
          simp only [List.nil_append, List.cons.injEq] at hq
          simp [final_name, hpc0, ← hq.1]
        · subst hpaths
          have hpc1 : 1 ≤ pc := by simp [hpc]
          simp only [List.cons_append, List.cons.injEq] at hq
          simp only [final_name, if_neg (by omega : ¬ pc + 1 = 1),
            List.cons_append, List.head?_cons]
          simp [← hq.1]

/-- C8: whenever `get_repository_details` returns a repository
configuration, it has at least one path and its resolved name is
`sanitize_repo_name` of the first path's source project — independent of
how many paths were added and overriding the name the operator initially
supplied for the repository. -/
theorem c8_repo_name_from_first_path (repo_input_name : String)
    (custom_repo_arches : List String) (steps : List PathStep) (r : RepoResult)
    (h : get_repository_details repo_input_name custom_repo_arches steps = some r) :
    r.paths ≠ [] ∧
    ∀ p ps, r.paths = p :: ps → r.repo_name = sanitize_repo_name p.project :=
  repo_details_loop_name steps repo_input_name [] custom_repo_arches 0 r rfl h

theorem c8_witness :
    (⟨"A_B", [⟨"A:B", "standard"⟩], ["x"]⟩ : RepoResult).repo_name
      = sanitize_repo_name (⟨"A:B", "standard"⟩ : RepoPath).project :=
  (c8_repo_name_from_first_path "A:B" ["x"]
      [⟨[⟨"", true, false⟩], "", none, false, false⟩] _ rfl).2
    ⟨"A:B", "standard"⟩ [] rfl

lemma set_first_text_map_tag (l : List XmlElem) (tag txt : String) :
    (set_first_text l tag txt).map XmlElem.tag = l.map XmlElem.tag := by
  induction l with
  | nil => rfl
  | cons c rest ih =>
    rw [set_first_text]
    by_cases hc : (c.tag == tag) = true
    · rw [if_pos hc]
      simp
    · rw [if_neg hc]
      simpa using ih

lemma countP_tag_eq_of_map_tag_eq {l₁ l₂ : List XmlElem} (s : String)
    (h : l₁.map XmlElem.tag = l₂.map XmlElem.tag) :
    l₁.countP (fun c => c.tag == s) = l₂.countP (fun c => c.tag == s) := by
  have h1 := List.countP_map (fun x => x == s) XmlElem.tag l₁
  have h2 := List.countP_map (fun x => x == s) XmlElem.tag l₂
  show List.countP ((fun x => x == s) ∘ XmlElem.tag) l₁
    = List.countP ((fun x => x == s) ∘ XmlElem.tag) l₂
  rw [← h1, ← h2, h]

lemma set_first_text_countP (l : List XmlElem) (tag txt s : String) :
    (set_first_text l tag txt).countP (fun c => c.tag == s)
      = l.countP (fun c => c.tag == s) :=
  countP_tag_eq_of_map_tag_eq s (set_first_text_map_tag l tag txt)

lemma set_first_text_mem {l : List XmlElem} {tag txt : String} :
    ∀ c ∈ set_first_text l tag txt, c ∈ l ∨ (c.tag = tag ∧ c.text = some txt) := by
  induction l with
  | nil => simp [set_first_text]
  | cons c0 rest ih =>
    intro c hc
    rw [set_first_text] at hc
    by_cases h0 : (c0.tag == tag) = true
    · rw [if_pos h0] at hc
      rcases List.mem_cons.mp hc with h | h
      · right
        subst h
        exact ⟨by simpa using h0, rfl⟩
      · exact Or.inl (List.mem_cons_of_mem _ h)
    · rw [if_neg h0] at hc
      rcases List.mem_cons.mp hc with h | h
      · exact Or.inl (by simp [h])
      · rcases ih c h with h' | h'
        · exact Or.inl (List.mem_cons_of_mem _ h')
        · exact Or.inr h'

lemma set_first_text_all_text {l : List XmlElem} {tag txt : String}
    (hcount : l.countP (fun c => c.tag == tag) ≤ 1) :
    ∀ c ∈ set_first_text l tag txt, c.tag = tag → c.text = some txt := by
  induction l with
  | nil => simp [set_first_text]
  | cons c0 rest ih =>
    intro c hc hctag
    rw [set_first_text] at hc
    by_cases h0 : (c0.tag == tag) = true
    · rw [if_pos h0] at hc
      rcases List.mem_cons.mp hc with h | h
      · subst h
        rfl
      · exfalso
        have hrest : rest.countP (fun c => c.tag == tag) = 0 := by
          rw [List.countP_cons] at hcount
          simp only [h0, if_pos] at hcount
          omega
        exact absurd (show (c.tag == tag) = true by simpa using hctag)
          (List.countP_eq_zero.mp hrest c h)
    · rw [if_neg h0] at hc
      rcases List.mem_cons.mp hc with h | h
      · subst h
        exact absurd (by simpa using hctag) (by simpa using h0)
      · refine ih ?_ c h hctag
        rw [List.countP_cons] at hcount
        simp only [h0, if_neg] at hcount
        omega

lemma set_attr_children (e : XmlElem) (k v : String) :
    (set_attr e k v).children = e.children := by
  rw [set_attr]
  by_cases h : e.attrs.any (fun p => p.1 == k) = true
  · rw [if_pos h]
  · rw [if_neg h]

lemma update_tag_countP_self (parent : XmlElem) (tag txt : String)
    (hcount : parent.children.countP (fun c => c.tag == tag) ≤ 1) :
    (update_tag parent tag txt).children.countP (fun c => c.tag == tag) = 1 := by
  rw [update_tag]
  by_cases hany : parent.children.any (fun c => c.tag == tag) = true
  · rw [if_pos hany]
    dsimp only
    rw [set_first_text_countP]
    have h1 : 0 < parent.children.countP (fun c => c.tag == tag) := by
      obtain ⟨c, hc, hp⟩ := List.any_eq_true.mp hany
      exact List.countP_pos_iff.mpr ⟨c, hc, hp⟩
    omega
  · rw [if_neg hany]
    dsimp only
    rw [List.countP_append]
    have h0 : parent.children.countP (fun c => c.tag == tag) = 0 := by
      rw [List.countP_eq_zero]
      intro a ha hpa
      exact hany (List.any_eq_true.mpr ⟨a, ha, hpa⟩)
    rw [h0]
    simp [List.countP_cons]

lemma update_tag_countP_other (parent : XmlElem) (tag txt s : String)
    (hne : s ≠ tag) :
    (update_tag parent tag txt).children.countP (fun c => c.tag == s)
      = parent.children.countP (fun c => c.tag == s) := by
  rw [update_tag]
  by_cases hany : parent.children.any (fun c => c.tag == tag) = true
  · rw [if_pos hany]
    dsimp only
    rw [set_first_text_countP]
  · rw [if_neg hany]
    dsimp only
    rw [List.countP_append]
    have : ((⟨tag, [], some txt, []⟩ : XmlElem).tag == s) = false := by
      simpa using Ne.symm hne
    simp [List.countP_cons, this]

lemma update_tag_mem {parent : XmlElem} {tag txt : String} :
    ∀ c ∈ (update_tag parent tag txt).children,
      c ∈ parent.children ∨ (c.tag = tag ∧ c.text = some txt) := by
  intro c hc
  rw [update_tag] at hc
  by_cases hany : parent.children.any (fun c => c.tag == tag) = true
  · rw [if_pos hany] at hc
    exact set_first_text_mem c hc
  · rw [if_neg hany] at hc
    rcases List.mem_append.mp hc with h | h
    · exact Or.inl h
    · rcases List.mem_singleton.mp h with rfl
      exact Or.inr ⟨rfl, rfl⟩

lemma update_tag_all_text {parent : XmlElem} {tag txt : String}
    (hcount : parent.children.countP (fun c => c.tag == tag) ≤ 1) :
    ∀ c ∈ (update_tag parent tag txt).children, c.tag = tag → c.text = some txt := by
  intro c hc hctag
  rw [update_tag] at hc
  by_cases hany : parent.children.any (fun c => c.tag == tag) = true
  · rw [if_pos hany] at hc
    exact set_first_text_all_text hcount c hc hctag
  · rw [if_neg hany] at hc
    rcases List.mem_append.mp hc with h | h
    · exact absurd (List.any_eq_true.mpr ⟨c, h, by simpa using hctag⟩) hany
    · rcases List.mem_singleton.mp h with rfl
      rfl

lemma strip_release_targets_map_tag (root : XmlElem) :
    (strip_release_targets root).children.map XmlElem.tag
      = root.children.map XmlElem.tag := by
  rw [strip_release_targets]
  dsimp only
  rw [List.map_map]
  apply List.map_congr_left
  intro c _
  by_cases hc : (c.tag == "repository") = true
  · simp [Function.comp, hc]
  · simp [Function.comp, hc]

lemma strip_release_targets_no_rt {root : XmlElem} :
    ∀ c ∈ (strip_release_targets root).children, c.tag = "repository" →
      ∀ s ∈ c.children, s.tag ≠ "releasetarget" := by
  intro c hc hcrepo s hs
  rw [strip_release_targets] at hc
  dsimp only at hc
  obtain ⟨c0, _, rfl⟩ := List.mem_map.mp hc
  by_cases h0 : (c0.tag == "repository") = true
  · rw [if_pos h0] at hs
    dsimp only at hs
    have := List.of_mem_filter hs
    simpa using this
  · rw [if_neg h0] at hcrepo
    exact absurd (by simpa using hcrepo) (by simpa using h0)

lemma assemble_root_children (root : XmlElem) (n t d : String)
    (mu mg ru rg : List String) (cfg : List RepoResult) :
    (assemble_root root n t d mu mg ru rg cfg).children
      = (update_tag (update_tag (set_attr root "name" n) "title" t)
          "description" d).children
        ++ role_elements mu mg ru rg ++ cfg.map repo_element := rfl

lemma create_project_meta_xml_ok {n t d : String} {mu mg ru rg : List String}
    {cfg : List RepoResult} {tm : Option RawDoc} {f1 f2 f3 f4 : Bool}
    {root : XmlElem}
    (h : create_project_meta_xml n t d mu mg ru rg cfg tm f1 f2 f3 f4
      = Except.ok root) :
    ∃ base, filtered_root tm f1 f2 f3 f4 = Except.ok base ∧
      root = assemble_root base n t d mu mg ru rg cfg := by
  unfold create_project_meta_xml at h
  cases hf : filtered_root tm f1 f2 f3 f4 with
  | error e =>
    rw [hf] at h
    simp [Except.map] at h
  | ok base =>
    rw [hf] at h
    simp only [Except.map, Except.ok.injEq] at h
    exact ⟨base, rfl, h.symm⟩

lemma filtered_root_children {tpl : XmlElem} {f1 f2 f3 f4 : Bool} {base : XmlElem}
    (h : filtered_root (some (RawDoc.parsed tpl)) f1 f2 f3 f4 = Except.ok base) :
    base.children = if f3 then
        tpl.children.filter (fun c => !(should_remove f1 f2 f3 f4 c))
      else (tpl.children.filter (fun c => !(should_remove f1 f2 f3 f4 c))).map
        (fun c => if c.tag == "repository" then
          { c with children := c.children.filter (fun t => !(t.tag == "releasetarget")) }
        else c) := by
  unfold filtered_root parse_xml at h
  by_cases hf3 : f3 = true
  · rw [hf3] at h ⊢
    simp only [Bool.not_true, if_neg Bool.false_ne_true, Except.ok.injEq] at h
    rw [← h]
    rw [if_pos rfl]
  · have hf3' : f3 = false := by
      cases f3
      · rfl
      · exact absurd rfl hf3
    rw [hf3'] at h ⊢
    simp only [Bool.not_false, if_pos rfl, Except.ok.injEq] at h
    rw [← h]
    rw [if_neg Bool.false_ne_true]
    rfl

lemma role_elements_tags {mu mg ru rg : List String} :
    ∀ c ∈ role_elements mu mg ru rg, c.tag = "person" ∨ c.tag = "group" := by
  intro c hc
  simp only [role_elements, List.mem_append, List.mem_map] at hc
  rcases hc with ((⟨u, _, rfl⟩ | ⟨g, _, rfl⟩) | ⟨u, _, rfl⟩) | ⟨g, _, rfl⟩
  · exact Or.inl rfl
  · exact Or.inr rfl
  · exact Or.inl rfl
  · exact Or.inr rfl

lemma repo_element_children_tags (r : RepoResult) :
    ∀ c ∈ (repo_element r).children, c.tag = "path" ∨ c.tag = "arch" := by
  intro c hc
  simp only [repo_element, List.mem_append, List.mem_map] at hc
  rcases hc with ⟨p, _, rfl⟩ | ⟨a, _, rfl⟩
  · exact Or.inl rfl
  · exact Or.inr rfl

lemma strip_fn_map_tag (l : List XmlElem) :
    (l.map (fun c => if c.tag == "repository" then
      { c with children := c.children.filter (fun t => !(t.tag == "releasetarget")) }
     else c)).map XmlElem.tag = l.map XmlElem.tag := by
  rw [List.map_map]
  apply List.map_congr_left
  intro c _
  by_cases hc : (c.tag == "repository") = true
  · simp [Function.comp, hc]
  · simp [Function.comp, hc]

lemma filtered_base_countP_le {tp : XmlElem} {f1 f2 f3 f4 : Bool} {base : XmlElem}
    (s : String)
    (hbase : filtered_root (some (RawDoc.parsed tp)) f1 f2 f3 f4 = Except.ok base) :
    base.children.countP (fun c => c.tag == s)
      ≤ tp.children.countP (fun c => c.tag == s) := by
  rw [filtered_root_children hbase]
  by_cases hf3 : f3 = true
  · rw [if_pos hf3]
    exact (List.filter_sublist _).countP_le _
  · rw [if_neg hf3]
    rw [countP_tag_eq_of_map_tag_eq s (strip_fn_map_tag _)]
    exact (List.filter_sublist _).countP_le _

lemma create_no_rt_in_repos {n t d : String} {mu mg ru rg : List String}
    {cfg : List RepoResult} {tpl : XmlElem} {f1 f2 f4 : Bool} {root : XmlElem}
    (h : create_project_meta_xml n t d mu mg ru rg cfg
      (some (RawDoc.parsed tpl)) f1 f2 false f4 = Except.ok root) :
    ∀ c ∈ root.children, c.tag = "repository" →
      ∀ s ∈ c.children, s.tag ≠ "releasetarget" := by
  obtain ⟨base, hbase, rfl⟩ := create_project_meta_xml_ok h
  intro c hc hcrepo s hs
  rw [assemble_root_children] at hc
  rcases List.mem_append.mp hc with hc' | hrepo
  · rcases List.mem_append.mp hc' with hupd | hrole
    · rcases update_tag_mem c hupd with h1 | h1
      · rcases update_tag_mem c h1 with h2 | h2
        · rw [set_attr_children] at h2
          have hch := filtered_root_children hbase
          rw [if_neg Bool.false_ne_true] at hch
          rw [hch] at h2
          exact @strip_release_targets_no_rt
            ⟨"aux", [], none,
              tpl.children.filter (fun c => !(should_remove f1 f2 false f4 c))⟩
            c h2 hcrepo s hs
        · exact absurd (h2.1.symm.trans hcrepo) (by decide)
      · exact absurd (h1.1.symm.trans hcrepo) (by decide)
    · rcases role_elements_tags c hrole with h1 | h1
      · exact absurd (h1.symm.trans hcrepo) (by decide)
      · exact absurd (h1.symm.trans hcrepo) (by decide)
  · obtain ⟨r, _, rfl⟩ := List.mem_map.mp hrepo
    rcases repo_element_children_tags r s hs with h1 | h1
    · rw [h1]
      decide
    · rw [h1]
      decide

lemma filter_arch_of_paths (ps : List RepoPath) :
    (ps.map (fun p => (⟨"path", [("project", p.project), ("repository", p.repository)],
      none, []⟩ : XmlElem))).filter (fun c => c.tag == "arch") = [] := by
  induction ps with
  | nil => rfl
  | cons p rest ih =>
    rw [List.map_cons, List.filter_cons]
    rw [show ((⟨"path", [("project", p.project), ("repository", p.repository)],
        none, []⟩ : XmlElem).tag == "arch") = false from rfl]
    rw [if_neg Bool.false_ne_true]
    exact ih

lemma filter_arch_of_arches (as : List String) :
    (as.map (fun a => (⟨"arch", [], some a, []⟩ : XmlElem))).filter
        (fun c => c.tag == "arch")
      = as.map (fun a => ⟨"arch", [], some a, []⟩) := by
  induction as with
  | nil => rfl
  | cons a rest ih =>
    rw [List.map_cons, List.filter_cons]
    rw [show ((⟨"arch", [], some a, []⟩ : XmlElem).tag == "arch") = true from rfl]
    rw [if_pos rfl, ih]

lemma arch_texts_repo_element (r : RepoResult) :
    arch_texts (repo_element r) = r.architectures := by
  unfold arch_texts repo_element
  dsimp only
  rw [List.filter_append, filter_arch_of_paths, List.nil_append, filter_arch_of_arches]
  rw [List.filterMap_map]
  have hcomp : ((fun c : XmlElem => c.text)
      ∘ (fun a : String => (⟨"arch", [], some a, []⟩ : XmlElem))) = Option.some :=
    funext (fun a => rfl)
  rw [hcomp, List.filterMap_some]

/-- C6: for every template and flag combination with `includeTargets` false,
the merged document contains no release-target element in any retained
repository: every repository element of the output has no releasetarget
child, independently of `includeRepos` (and of the other flags). -/
theorem c6_release_targets_removed (n t d : String) (mu mg ru rg : List String)
    (cfg : List RepoResult) (tpl : XmlElem) (f1 f2 f4 : Bool) (root : XmlElem)
    (h : create_project_meta_xml n t d mu mg ru rg cfg
      (some (RawDoc.parsed tpl)) f1 f2 false f4 = Except.ok root) :
    ∀ c ∈ root.children, c.tag = "repository" →
      ∀ s ∈ c.children, s.tag ≠ "releasetarget" :=
  create_no_rt_in_repos h

theorem c6_witness :
    (⟨"arch", [], some "x86_64", []⟩ : XmlElem).tag ≠ "releasetarget" :=
  c6_release_targets_removed "P" "t" "d" [] [] [] [] []
    ⟨"project", [], none, [⟨"repository", [("name", "r")], none,
      [⟨"releasetarget", [], none, []⟩, ⟨"arch", [], some "x86_64", []⟩]⟩]⟩
    true true true _ rfl
    ⟨"repository", [("name", "r")], none, [⟨"arch", [], some "x86_64", []⟩]⟩
    (List.mem_cons_self _ _) rfl
    ⟨"arch", [], some "x86_64", []⟩ (List.mem_cons_self _ _)

/-- C5 (amended): serialization emits each configured repository unchanged,
with its architecture elements in the order of the repository's
architecture list (not re-sorted at serialization time); discovery and
template extraction produce ascending lists, but the fixed default list is
emitted in its declaration order, which is not ascending. -/
theorem c5_arch_emission_order (n t d : String) (mu mg ru rg : List String)
    (cfg : List RepoResult) (tm : Option RawDoc) (f1 f2 f3 f4 : Bool)
    (root : XmlElem) (r : RepoResult)
    (h : create_project_meta_xml n t d mu mg ru rg cfg tm f1 f2 f3 f4
      = Except.ok root) (hr : r ∈ cfg) :
    repo_element r ∈ root.children ∧ arch_texts (repo_element r) = r.architectures := by
  obtain ⟨base, hbase, rfl⟩ := create_project_meta_xml_ok h
  refine ⟨?_, arch_texts_repo_element r⟩
  rw [assemble_root_children]
  exact List.mem_append_right _ (List.mem_map_of_mem repo_element hr)

theorem c5_witness :
    repo_element ⟨"r", [⟨"p", "s"⟩], ["x86_64"]⟩ ∈
      (⟨"project", [("name", "P")], none,
        [⟨"title", [], some "t", []⟩, ⟨"description", [], some "d", []⟩,
         repo_element ⟨"r", [⟨"p", "s"⟩], ["x86_64"]⟩]⟩ : XmlElem).children ∧
    arch_texts (repo_element ⟨"r", [⟨"p", "s"⟩], ["x86_64"]⟩) = ["x86_64"] :=
  c5_arch_emission_order "P" "t" "d" [] [] [] [] [⟨"r", [⟨"p", "s"⟩], ["x86_64"]⟩]
    none false false false false _ ⟨"r", [⟨"p", "s"⟩], ["x86_64"]⟩ rfl
    (List.mem_cons_self _ _)

/-- C4 (amended): the dependency rule is enforced by the caller, not by the
merge function: `main`'s prompting flow never requests release targets or
build tags once repository import is declined (the flags stay false), and
under the flags it then passes, the merged output contains no release-target
and no build-restriction element anywhere a template can put one —
no such top-level child, and no releasetarget inside any repository. -/
theorem c4_dependent_flags_forced_by_caller (raw : RawDoc)
    (ansRoles ansTargets ansBuildTags : Bool) (n t d : String)
    (mu mg ru rg : List String) (cfg : List RepoResult) (root : XmlElem)
    (h : create_project_meta_xml n t d mu mg ru rg cfg (some raw)
      (main_template_flags (some raw) ansRoles false ansTargets ansBuildTags).repos
      (main_template_flags (some raw) ansRoles false ansTargets ansBuildTags).roles
      (main_template_flags (some raw) ansRoles false ansTargets ansBuildTags).targets
      (main_template_flags (some raw) ansRoles false ansTargets ansBuildTags).build_tags
      = Except.ok root) :
    (∀ c ∈ root.children, c.tag ≠ "releasetarget" ∧ c.tag ≠ "build") ∧
    (∀ c ∈ root.children, c.tag = "repository" →
      ∀ s ∈ c.children, s.tag ≠ "releasetarget") := by
  have h' : create_project_meta_xml n t d mu mg ru rg cfg (some raw)
      false ansRoles false false = Except.ok root := h
  cases raw with
  | malformed =>
    exact absurd h' (by simp [create_project_meta_xml, filtered_root, parse_xml,
      Except.map])
  | parsed tpl =>
    refine ⟨?_, create_no_rt_in_repos h'⟩
    obtain ⟨base, hbase, rfl⟩ := create_project_meta_xml_ok h'
    intro c hc
    rw [assemble_root_children] at hc
    rcases List.mem_append.mp hc with hc' | hrepo
    · rcases List.mem_append.mp hc' with hupd | hrole
      · rcases update_tag_mem c hupd with h1 | h1
        · rcases update_tag_mem c h1 with h2 | h2
          · rw [set_attr_children] at h2
            have hch := filtered_root_children hbase
            rw [if_neg Bool.false_ne_true] at hch
            rw [hch] at h2
            obtain ⟨c0, hc0, rfl⟩ := List.mem_map.mp h2
            have hkeep : should_remove false ansRoles false false c0 = false := by
              simpa using List.of_mem_filter hc0
            have hrt : (c0.tag == "releasetarget") = false := by
              simp only [should_remove, Bool.or_eq_false_iff,
                Bool.and_eq_false_iff] at hkeep
              rcases hkeep.1.2 with hx | hx
              · exact hx
              · simp at hx
            have hbuild : (c0.tag == "build") = false := by
              simp only [should_remove, Bool.or_eq_false_iff,
                Bool.and_eq_false_iff] at hkeep
              rcases hkeep.2 with hx | hx
              · exact hx
              · simp at hx
            by_cases hrepo0 : (c0.tag == "repository") = true
            · rw [if_pos hrepo0]
              constructor
              · simpa using hrt
              · simpa using hbuild
            · rw [if_neg hrepo0]
              constructor
              · simpa using hrt
              · simpa using hbuild
          · rw [h2.1]
            exact ⟨by decide, by decide⟩
        · rw [h1.1]
          exact ⟨by decide, by decide⟩
      · rcases role_elements_tags c hrole with h1 | h1
        · rw [h1]
          exact ⟨by decide, by decide⟩
        · rw [h1]
          exact ⟨by decide, by decide⟩
    · obtain ⟨r, _, rfl⟩ := List.mem_map.mp hrepo
      exact ⟨(by decide : ("repository" : String) ≠ "releasetarget"),
        (by decide : ("repository" : String) ≠ "build")⟩

theorem c4_witness :
    (⟨"title", [], some "t", []⟩ : XmlElem).tag ≠ "releasetarget" ∧
    (⟨"title", [], some "t", []⟩ : XmlElem).tag ≠ "build" :=
  (c4_dependent_flags_forced_by_caller
      (RawDoc.parsed ⟨"project", [], none, [⟨"build", [], none, []⟩]⟩)
      false true true "P" "t" "d" [] [] [] [] [] _ rfl).1
    ⟨"title", [], some "t", []⟩ (List.mem_cons_self _ _)

lemma filter_person_of_person_map (us : List String) (role : String) :
    (us.map (fun u => person_element u role)).filter (fun c => c.tag == "person")
      = us.map (fun u => person_element u role) := by
  induction us with
  | nil => rfl
  | cons u rest ih =>
    rw [List.map_cons, List.filter_cons]
    rw [show ((person_element u role).tag == "person") = true from rfl]
    rw [if_pos rfl, ih]

lemma filter_person_of_group_map (gs : List String) (role : String) :
    (gs.map (fun g => group_element g role)).filter (fun c => c.tag == "person")
      = [] := by
  induction gs with
  | nil => rfl
  | cons g rest ih =>
    rw [List.map_cons, List.filter_cons]
    rw [show ((group_element g role).tag == "person") = false from rfl]
    rw [if_neg Bool.false_ne_true]
    exact ih

lemma filter_person_of_repo_map (cfg : List RepoResult) :
    (cfg.map repo_element).filter (fun c => c.tag == "person") = [] := by
  induction cfg with
  | nil => rfl
  | cons r rest ih =>
    rw [List.map_cons, List.filter_cons]
    rw [show ((repo_element r).tag == "person") = false from rfl]
    rw [if_neg Bool.false_ne_true]
    exact ih

/-- C2 (amended): serialization emits exactly one `person` element per
entry of each user role list, in insertion order — maintainer persons
first, then reviewer persons; nothing deduplicates them, so requesting the
same role twice for the same entity id yields two elements. -/
theorem c2_one_element_per_grant (n t d : String) (mu mg ru rg : List String)
    (cfg : List RepoResult) (f1 f2 f3 f4 : Bool) (root : XmlElem)
    (h : create_project_meta_xml n t d mu mg ru rg cfg none f1 f2 f3 f4
      = Except.ok root) :
    root.children.filter (fun c => c.tag == "person")
      = mu.map (fun u => person_element u "maintainer")
        ++ ru.map (fun u => person_element u "reviewer") := by
  obtain ⟨base, hbase, rfl⟩ := create_project_meta_xml_ok h
  have hbase' : base = ⟨"project", [], none, []⟩ := by
    unfold filtered_root at hbase
    simpa using hbase.symm
  subst hbase'
  rw [assemble_root_children]
  rw [List.filter_append, List.filter_append]
  rw [show (update_tag (update_tag
      (set_attr ⟨"project", [], none, []⟩ "name" n) "title" t)
      "description" d).children
    = [⟨"title", [], some t, []⟩, ⟨"description", [], some d, []⟩] from rfl]
  rw [show ([⟨"title", [], some t, []⟩, ⟨"description", [], some d, []⟩]
      : List XmlElem).filter (fun c => c.tag == "person") = [] from rfl]
  rw [filter_person_of_repo_map]
  rw [role_elements, List.filter_append, List.filter_append, List.filter_append]
  rw [filter_person_of_person_map, filter_person_of_person_map,
    filter_person_of_group_map, filter_person_of_group_map]
  simp

theorem c2_witness :
    (⟨"project", [("name", "P")], none,
      [⟨"title", [], some "t", []⟩, ⟨"description", [], some "d", []⟩,
       person_element "alice" "maintainer"]⟩ : XmlElem).children.filter
        (fun c => c.tag == "person")
      = ["alice"].map (fun u => person_element u "maintainer")
        ++ ([] : List String).map (fun u => person_element u "reviewer") :=
  c2_one_element_per_grant "P" "t" "d" ["alice"] [] [] [] []
    false false false false _ rfl

lemma role_elements_countP_zero (mu mg ru rg : List String) (s : String)
    (hs1 : s ≠ "person") (hs2 : s ≠ "group") :
    (role_elements mu mg ru rg).countP (fun c => c.tag == s) = 0 := by
  rw [List.countP_eq_zero]
  intro c hc
  rcases role_elements_tags c hc with h | h
  · rw [h]
    simpa using Ne.symm hs1
  · rw [h]
    simpa using Ne.symm hs2

lemma repo_map_countP_zero (cfg : List RepoResult) (s : String)
    (hs : s ≠ "repository") :
    (cfg.map repo_element).countP (fun c => c.tag == s) = 0 := by
  rw [List.countP_eq_zero]
  intro c hc
  obtain ⟨r, _, rfl⟩ := List.mem_map.mp hc
  simpa using Ne.symm hs

/-- C10 (amended): when the template (if any) carries at most one title and
at most one description element, the built document contains exactly one of
each, and their text is the operator-supplied title and description —
existing elements are overwritten in place, never duplicated. -/
theorem c10_title_description_unique (n t d : String) (mu mg ru rg : List String)
    (cfg : List RepoResult) (tpl : Option XmlElem) (f1 f2 f3 f4 : Bool)
    (root : XmlElem)
    (htpl : ∀ tp ∈ tpl, tp.children.countP (fun c => c.tag == "title") ≤ 1 ∧
            tp.children.countP (fun c => c.tag == "description") ≤ 1)
    (h : create_project_meta_xml n t d mu mg ru rg cfg (tpl.map RawDoc.parsed)
      f1 f2 f3 f4 = Except.ok root) :
    root.children.countP (fun c => c.tag == "title") = 1 ∧
    root.children.countP (fun c => c.tag == "description") = 1 ∧
    (∀ c ∈ root.children, c.tag = "title" → c.text = some t) ∧
    (∀ c ∈ root.children, c.tag = "description" → c.text = some d) := by
  obtain ⟨base, hbase, rfl⟩ := create_project_meta_xml_ok h
  have hbt : base.children.countP (fun c => c.tag == "title") ≤ 1 ∧
      base.children.countP (fun c => c.tag == "description") ≤ 1 := by
    cases tpl with
    | none =>
      have hb : base = ⟨"project", [], none, []⟩ := by
        unfold filtered_root at hbase
        simpa using hbase.symm
      subst hb
      exact ⟨by simp, by simp⟩
    | some tp =>
      obtain ⟨h1, h2⟩ := htpl tp rfl
      exact ⟨le_trans (filtered_base_countP_le "title" hbase) h1,
        le_trans (filtered_base_countP_le "description" hbase) h2⟩
  have htitle_upd : (update_tag (set_attr base "name" n) "title" t).children.countP
      (fun c => c.tag == "title") = 1 := by
    apply update_tag_countP_self
    rw [set_attr_children]
    exact hbt.1
  have hdesc_pre : (update_tag (set_attr base "name" n) "title" t).children.countP
      (fun c => c.tag == "description")
      = base.children.countP (fun c => c.tag == "description") := by
    rw [update_tag_countP_other _ "title" t "description" (by decide)]
    rw [set_attr_children]
  refine ⟨?_, ?_, ?_, ?_⟩
  · rw [assemble_root_children, List.countP_append, List.countP_append]
    rw [role_elements_countP_zero mu mg ru rg "title" (by decide) (by decide)]
    rw [repo_map_countP_zero cfg "title" (by decide)]
    rw [update_tag_countP_other _ "description" d "title" (by decide)]
    rw [htitle_upd]
  · rw [assemble_root_children, List.countP_append, List.countP_append]
    rw [role_elements_countP_zero mu mg ru rg "description" (by decide) (by decide)]
    rw [repo_map_countP_zero cfg "description" (by decide)]
    rw [update_tag_countP_self _ "description" d (by rw [hdesc_pre]; exact hbt.2)]
  · intro c hc hctag
    rw [assemble_root_children] at hc
    rcases List.mem_append.mp hc with hc' | hrepo
    · rcases List.mem_append.mp hc' with hupd | hrole
      · rcases update_tag_mem c hupd with h1 | h1
        · exact update_tag_all_text (by rw [set_attr_children]; exact hbt.1) c h1 hctag
        · exact absurd (hctag.symm.trans h1.1) (by decide)
      · rcases role_elements_tags c hrole with h1 | h1
        · exact absurd (hctag.symm.trans h1) (by decide)
        · exact absurd (hctag.symm.trans h1) (by decide)
    · obtain ⟨r, _, rfl⟩ := List.mem_map.mp hrepo
      exact absurd hctag (by exact (by decide : ("repository" : String) ≠ "title"))
  · intro c hc hctag
    rw [assemble_root_children] at hc
    rcases List.mem_append.mp hc with hc' | hrepo
    · rcases List.mem_append.mp hc' with hupd | hrole
      · exact update_tag_all_text (by rw [hdesc_pre]; exact hbt.2) c hupd hctag
      · rcases role_elements_tags c hrole with h1 | h1
        · exact absurd (hctag.symm.trans h1) (by decide)
        · exact absurd (hctag.symm.trans h1) (by decide)
    · obtain ⟨r, _, rfl⟩ := List.mem_map.mp hrepo
      exact absurd hctag
        (by exact (by decide : ("repository" : String) ≠ "description"))

theorem c10_witness :
    (⟨"project", [("name", "P")], none,
      [⟨"title", [], some "T", []⟩, ⟨"description", [], some "D", []⟩]⟩
      : XmlElem).children.countP (fun c => c.tag == "title") = 1 ∧
    (⟨"project", [("name", "P")], none,
      [⟨"title", [], some "T", []⟩, ⟨"description", [], some "D", []⟩]⟩
      : XmlElem).children.countP (fun c => c.tag == "description") = 1 :=
  ⟨(c10_title_description_unique "P" "T" "D" [] [] [] [] [] none
      false false false false _ (by simp) rfl).1,
   (c10_title_description_unique "P" "T" "D" [] [] [] [] [] none
      false false false false _ (by simp) rfl).2.1⟩
